import Mathlib

/-!
Verification development for the shopify-token library.

The definitions below are a shallow embedding of the library's source:

- the HMAC verification routine (encodeValue, encodeKey, timingSafeEqual,
  ShopifyToken.verifyHmac),
- the shop hostname normalization used by generateAuthUrl,
- the constructor option validation, and
- the getAccessToken timeout / response / error state machine, whose
  event handlers are translated into a step function over an explicit
  state so that arbitrary interleavings of the timer and the network
  events can be analyzed.

JavaScript strings are modelled as Lean strings; JS byte buffers as
List Nat; machine integers do not overflow in any code path modelled
here.  The SHA-256 HMAC itself and JSON.parse are platform primitives
(explicitly out of scope in the specification), so they enter the model
as function parameters.
-/

/-! ## Query values

A parsed query-string object maps string keys to strings, numbers, or
arrays (repeated keys).  The code path only distinguishes strings,
arrays and other scalars, which are stringified with String(v). -/

inductive QScalar where
  | s (v : String)
  | n (v : Int)
deriving DecidableEq, Repr

inductive QVal where
  | scalar (x : QScalar)
  | arr (l : List QScalar)
deriving DecidableEq, Repr

def QueryMap := List (String × QVal)

instance : DecidableEq QueryMap := by
  unfold QueryMap
  infer_instance

/-- JS String(v) on the scalar values that occur in a query object. -/
def scalarStr : QScalar → String
  | .s v => v
  | .n v => toString v

/-! ## The two percent encoders (src lines 15 and 25)

encodeValue replaces each % and & with %25 / %26; encodeKey additionally
replaces = with %3D.  Each is a regex replace with encodeURIComponent as
the replacer. -/

def encodeValue (s : String) : String :=
  String.mk (s.data.flatMap fun c =>
    if c = '%' then ['%', '2', '5']
    else if c = '&' then ['%', '2', '6']
    else [c])

def encodeKey (s : String) : String :=
  String.mk (s.data.flatMap fun c =>
    if c = '%' then ['%', '2', '5']
    else if c = '&' then ['%', '2', '6']
    else if c = '=' then ['%', '3', 'D']
    else [c])

/-- Array values are serialized as a bracketed, quoted, comma-space
joined list before encoding, as in verifyHmac's map step; other values
go through String(v). -/
def serializeQVal : QVal → String
  | .scalar x => scalarStr x
  | .arr l => "[\"" ++ String.intercalate "\", \"" (l.map scalarStr) ++ "\"]"

/-! ## JS default sort order

Array.prototype.sort with no comparator orders strings by their UTF-16
code units.  Lean chars are unicode scalar values, so characters at or
above U+10000 expand to a surrogate pair. -/

def utf16Units (s : String) : List Nat :=
  s.data.flatMap fun c =>
    let n := c.toNat
    if n < 0x10000 then [n]
    else [0xD800 + (n - 0x10000) / 0x400, 0xDC00 + (n - 0x10000) % 0x400]

/-- UTF-8 encoding of a unicode scalar value, as a list of bytes. -/
def utf8EncNat (n : Nat) : List Nat :=
  if n < 0x80 then [n]
  else if n < 0x800 then [0xC0 + n / 0x40, 0x80 + n % 0x40]
  else if n < 0x10000 then [0xE0 + n / 0x1000, 0x80 + n / 0x40 % 0x40, 0x80 + n % 0x40]
  else [0xF0 + n / 0x40000, 0x80 + n / 0x1000 % 0x40, 0x80 + n / 0x40 % 0x40, 0x80 + n % 0x40]

def utf8Bytes (s : String) : List Nat :=
  s.data.flatMap fun c => utf8EncNat c.toNat

/-- Buffer.byteLength: the UTF-8 byte length of a string. -/
def byteLength (s : String) : Nat := (utf8Bytes s).length

/-- Lexicographic comparison (less-or-equal) of two unit lists. -/
def lexLeN : List Nat → List Nat → Bool
  | [], _ => true
  | _ :: _, [] => false
  | a :: as, b :: bs => if a < b then true else if b < a then false else lexLeN as bs

/-- The comparison underlying the JS default sort: UTF-16 code units. -/
def jsStrLe (a b : String) : Bool := lexLeN (utf16Units a) (utf16Units b)

/-- Byte-wise (UTF-8) lexicographic comparison, as the spec words it. -/
def byteStrLe (a b : String) : Bool := lexLeN (utf8Bytes a) (utf8Bytes b)

def insertSorted (le : String → String → Bool) (x : String) : List String → List String
  | [] => [x]
  | y :: ys => if le x y then x :: y :: ys else y :: insertSorted le x ys

/-- Insertion sort; for a total order on strings (where equal elements
are identical strings) any comparison sort returns this list, so it
models Array.prototype.sort. -/
def sortBy (le : String → String → Bool) : List String → List String
  | [] => []
  | x :: xs => insertSorted le x (sortBy le xs)

/-! ## The canonical signing string (verifyHmac lines 133-142) -/

def pairString (k : String) (v : QVal) : String :=
  encodeKey k ++ "=" ++ encodeValue (serializeQVal v)

def queryPairs (q : QueryMap) : List String :=
  (q.filter fun kv => kv.fst != "signature" && kv.fst != "hmac").map
    fun kv => pairString kv.fst kv.snd

def signingString (q : QueryMap) : String :=
  String.intercalate "&" (sortBy jsStrLe (queryPairs q))

/-! ## Hex decoding (Buffer.from(str, 'hex'))

Node decodes complete two-digit pairs and stops at the first character
that is not a hex digit (also dropping a trailing odd digit). -/

def hexVal (c : Char) : Option Nat :=
  let n := c.toNat
  if 0x30 ≤ n ∧ n ≤ 0x39 then some (n - 0x30)
  else if 0x61 ≤ n ∧ n ≤ 0x66 then some (n - 0x61 + 10)
  else if 0x41 ≤ n ∧ n ≤ 0x46 then some (n - 0x41 + 10)
  else none

def isHexDigit (c : Char) : Bool := (hexVal c).isSome

def hexDecodeList : List Char → List Nat
  | c1 :: c2 :: rest =>
    match hexVal c1, hexVal c2 with
    | some hi, some lo => (16 * hi + lo) :: hexDecodeList rest
    | _, _ => []
  | _ => []

def hexDecode (s : String) : List Nat := hexDecodeList s.data

/-- A string of exactly 64 hexadecimal characters (the claims' notion of
a well-formed hex-encoded SHA-256 digest). -/
def isHex64 (h : String) : Bool := h.data.length == 64 && h.data.all isHexDigit

/-! ## timingSafeEqual (src lines 37-45)

A for loop over a.length accumulating result |= a[i] ^ b[i].  Reading
b[i] past the end of the buffer yields undefined, which the ^ operator
coerces to 0 (ToInt32(NaN) = 0). -/

def nthByte : List Nat → Nat → Nat
  | [], _ => 0
  | a :: _, 0 => a
  | _ :: t, i + 1 => nthByte t i

def xorAccum (a b : List Nat) : Nat :=
  (List.range a.length).foldl (fun r i => r ||| (nthByte a i ^^^ nthByte b i)) 0

def timingSafeEqual (a b : List Nat) : Bool := xorAccum a b == 0

/-! ## verifyHmac (src lines 132-156)

The digest function crypto.createHmac('sha256', secret).update(m).digest()
is a platform primitive; it is a parameter hmacSha256 taking the secret
and the message to a 32-byte digest. -/

/-- The early-rejection guard of verifyHmac: the hmac field must be
present, a string, and have UTF-8 byte length exactly 64; otherwise the
function returns false before the digest is computed. -/
def hmacGuardOk (q : QueryMap) : Bool :=
  match List.lookup "hmac" q with
  | some (QVal.scalar (QScalar.s h)) => byteLength h == 64
  | _ => false

def verifyHmac (hmacSha256 : String → String → List Nat) (secret : String)
    (q : QueryMap) : Bool :=
  match List.lookup "hmac" q with
  | some (QVal.scalar (QScalar.s h)) =>
    if byteLength h = 64 then
      timingSafeEqual (hmacSha256 secret (signingString q)) (hexDecode h)
    else false
  | _ => false

/-! ## Spec-modelled canonicalization

Written independently from the specification's words (section 4.2), to
be compared with the source-derived signingString: take every key except
hmac and signature; percent-encode the key escaping %, &, =; the value
escaping % and & only; serialize arrays as a bracketed, quoted,
comma-space-joined list and stringify other scalars; join each pair as
key=value; sort the pair strings lexicographically byte-wise ascending
and join them with &. -/

/-- Modelled from the spec: percent-encoding of a value character. -/
def specEscapeVal (c : Char) : String :=
  if c = '%' then "%25" else if c = '&' then "%26" else String.mk [c]

/-- Modelled from the spec: percent-encoding of a key character. -/
def specEscapeKey (c : Char) : String :=
  if c = '=' then "%3D" else specEscapeVal c

/-- Modelled from the spec: value encoding escapes % and & only. -/
def specEncodeValue (s : String) : String :=
  s.data.foldr (fun c acc => specEscapeVal c ++ acc) ""

/-- Modelled from the spec: key encoding escapes %, & and =. -/
def specEncodeKey (s : String) : String :=
  s.data.foldr (fun c acc => specEscapeKey c ++ acc) ""

/-- Modelled from the spec: multi-valued fields are serialized as a
bracketed, quoted, comma-space-joined list; non-string scalars are
stringified. -/
def specSerialize : QVal → String
  | .scalar x => scalarStr x
  | .arr l => "[\"" ++ String.intercalate "\", \"" (l.map scalarStr) ++ "\"]"

/-- Modelled from the spec: the key=value pair strings of every
non-reserved key. -/
def specPairs (q : QueryMap) : List String :=
  (q.filter fun kv => kv.fst != "signature" && kv.fst != "hmac").map
    fun kv => specEncodeKey kv.fst ++ "=" ++ specEncodeValue (specSerialize kv.snd)

/-- Modelled from the spec: the canonical signing string, with the pair
strings sorted lexicographically byte-wise ascending. -/
def specSigningString (q : QueryMap) : String :=
  String.intercalate "&" (sortBy byteStrLe (specPairs q))

/-- Every character of every pair string lies in the Basic Multilingual
Plane (below U+10000). -/
def allBMP (q : QueryMap) : Bool :=
  (queryPairs q).all fun p => p.data.all fun c => decide (c.toNat < 0x10000)

/-! ## generateAuthUrl host normalization (src line 119) -/

def jsEndsWith (s suffix : String) : Bool := suffix.data.isSuffixOf s.data

def shopHostname (shop : String) : String :=
  if jsEndsWith shop ".myshopify.com" then shop else shop ++ ".myshopify.com"

/-! ## Constructor (src lines 63-80)

Options fields are Option-valued: none models an absent property.  JS
truthiness on a supplied string value: the empty string is falsy. -/

inductive ScopesVal where
  | str (v : String)
  | array (l : List String)
deriving DecidableEq, Repr

structure TokenOptions where
  apiKey : Option String
  sharedSecret : Option String
  redirectUri : Option String
  scopes : Option ScopesVal
  timeout : Option Nat
  accessMode : Option String
  agent : Option Unit
deriving DecidableEq, Repr

structure TokenInstance where
  accessMode : String
  scopes : ScopesVal
  timeout : Nat
  sharedSecret : String
  redirectUri : String
  apiKey : String
  agent : Option Unit
deriving DecidableEq, Repr

def truthyStr : Option String → Bool
  | none => false
  | some s => s != ""

/-- The ShopifyToken constructor: throws (Except.error) when options is
absent or any of sharedSecret, redirectUri, apiKey is falsy; otherwise
builds the instance with its defaults. -/
def constructToken (o : Option TokenOptions) : Except String TokenInstance :=
  match o with
  | none => Except.error "Missing or invalid options"
  | some opts =>
    if !truthyStr opts.sharedSecret || !truthyStr opts.redirectUri
        || !truthyStr opts.apiKey then
      Except.error "Missing or invalid options"
    else
      Except.ok
        { accessMode := opts.accessMode.getD ""
          scopes := opts.scopes.getD (ScopesVal.str "read_content")
          timeout := opts.timeout.getD 60000
          sharedSecret := opts.sharedSecret.getD ""
          redirectUri := opts.redirectUri.getD ""
          apiKey := opts.apiKey.getD ""
          agent := opts.agent }

/-! ## getAccessToken state machine (src lines 167-235)

One HTTPS POST raced against one timer.  The promise executor installs:
a timeout callback (abort the request, null the timer variable, reject),
a response end handler (return early if the timer variable is null,
cancel the timer, classify the buffered body) and an error handler
(return early if the timer variable is null, cancel the timer, reject
with the transport error).  Note that the end and error handlers cancel
the scheduled timer but do not null the timer variable.

Environment events: the timer can fire only while it is still scheduled
(not fired, not cancelled); a response can complete at most once; the
transport may report errors at any time, even after a completed
response.  JSON.parse is a platform primitive and enters as the
parameter parse; the payload type is abstract. -/

structure JsError where
  message : String
  statusCode : Option Nat
  responseBody : Option String
deriving DecidableEq, Repr

inductive ExchOutcome (α : Type) where
  | resolved (payload : α)
  | rejected (e : JsError)
deriving DecidableEq, Repr

inductive ExchEv where
  | timerFire
  | respEnd (status : Nat) (body : String)
  | reqError (message : String)
deriving DecidableEq, Repr

structure ExchState (α : Type) where
  timerVar : Bool
  timerActive : Bool
  aborted : Bool
  calls : List (ExchOutcome α)
deriving DecidableEq, Repr

def initExch {α : Type} : ExchState α := ⟨true, true, false, []⟩

def timeoutError : JsError := ⟨"Request timed out", none, none⟩

/-- Classification of a completed response (src lines 199-222): non-200
rejects with status and raw body; unparseable 200 rejects with status
200 and the raw body; otherwise resolve with the parsed payload. -/
def classifyResp {α : Type} (parse : String → Option α) (status : Nat)
    (body : String) : ExchOutcome α :=
  if status ≠ 200 then
    ExchOutcome.rejected ⟨"Failed to get Shopify access token", some status, some body⟩
  else
    match parse body with
    | some payload => ExchOutcome.resolved payload
    | none => ExchOutcome.rejected ⟨"Failed to parse the response body", some status, some body⟩

/-- One event handler execution.  calls records every call made to the
promise's resolve or reject, in order; the promise's settled value is
the first entry. -/
def stepExch {α : Type} (parse : String → Option α) (s : ExchState α) :
    ExchEv → ExchState α
  | .timerFire => ⟨false, false, true, s.calls ++ [ExchOutcome.rejected timeoutError]⟩
  | .respEnd status body =>
    if s.timerVar then
      ⟨s.timerVar, false, s.aborted, s.calls ++ [classifyResp parse status body]⟩
    else s
  | .reqError m =>
    if s.timerVar then
      ⟨s.timerVar, false, s.aborted, s.calls ++ [ExchOutcome.rejected ⟨m, none, none⟩]⟩
    else s

def runExch {α : Type} (parse : String → Option α) (tr : List ExchEv) : ExchState α :=
  tr.foldl (stepExch parse) initExch

/-- The promise's settled value: the first resolve/reject call wins;
later calls are discarded by the promise machinery itself. -/
def promiseOf {α : Type} (s : ExchState α) : Option (ExchOutcome α) := s.calls.head?

def evEnabled {α : Type} (s : ExchState α) : ExchEv → Bool
  | .timerFire => s.timerActive
  | _ => true

def okFromB {α : Type} (parse : String → Option α) (s : ExchState α) :
    List ExchEv → Bool
  | [] => true
  | e :: rest => evEnabled s e && okFromB parse (stepExch parse s e) rest

def isRespEnd : ExchEv → Bool
  | .respEnd _ _ => true
  | _ => false

/-- A physically possible delivery order of events: the timer only fires
while scheduled, and at most one response completes. -/
def validTrace {α : Type} (parse : String → Option α) (tr : List ExchEv) : Bool :=
  okFromB parse initExch tr && Nat.ble (tr.countP isRespEnd) 1

deriving instance DecidableEq for Except

/-! ## Concrete inputs used by witnesses and counterexamples -/

/-- A well-formed 64-hex-character hmac value. -/
def hex64zeros : String := String.mk (List.replicate 64 '0')

/-- A 64-character string that is not hexadecimal but has UTF-8 byte
length 64. -/
def zChars64 : String := String.mk (List.replicate 64 'z')

/-- A stand-in digest function returning a fixed 32-byte digest; used
only to instantiate theorems whose digest function is abstract. -/
def oracle32 : String → String → List Nat := fun _ _ => List.replicate 32 0

/-- A stand-in JSON parser that rejects every body. -/
def parseNone : String → Option String := fun _ => none

def zQuery : QueryMap := [("hmac", QVal.scalar (QScalar.s zChars64))]

def hQuery : QueryMap := [("hmac", QVal.scalar (QScalar.s hex64zeros))]

/-- A query holding the one-element array value ["x"] under key k. -/
def arrQuery : QueryMap :=
  [("k", QVal.arr [QScalar.s "x"]), ("hmac", QVal.scalar (QScalar.s hex64zeros))]

/-- A query holding under key k the plain string that spells out the
bracketed serialization of ["x"]. -/
def strQuery : QueryMap :=
  [("k", QVal.scalar (QScalar.s "[\"x\"]")), ("hmac", QVal.scalar (QScalar.s hex64zeros))]

/-- Two single-character keys that the JS sort and a byte-wise sort
order differently: U+10000 (a surrogate pair in UTF-16) and U+FFFF. -/
def astralPair : QueryMap :=
  [(String.mk [Char.ofNat 0x10000], QVal.scalar (QScalar.s "a")),
   (String.mk [Char.ofNat 0xFFFF], QVal.scalar (QScalar.s "b"))]

/-- Options with every required property present but an empty apiKey. -/
def emptyKeyOptions : TokenOptions :=
  ⟨some "", some "secret", some "uri", none, none, none, none⟩

def fullOptions : TokenOptions :=
  ⟨some "baz", some "foo", some "bar", none, none, none, none⟩

/-- The 200-response body of the success scenario. -/
def tokenBody : String := "\x7b\"access_token\":\"T\",\"scope\":\"read_content\"\x7d"

def tokenPayload : List (String × String) := [("access_token", "T"), ("scope", "read_content")]

/-- A stand-in JSON parser defined at exactly the success-scenario body. -/
def parseToken : String → Option (List (String × String)) :=
  fun b => if b = tokenBody then some tokenPayload else none

/-! ## Helper lemmas: timingSafeEqual -/

theorem natOr_eq_zero {a b : Nat} : a ||| b = 0 ↔ a = 0 ∧ b = 0 := by
  constructor
  · intro h
    refine ⟨Nat.eq_of_testBit_eq fun i => ?_, Nat.eq_of_testBit_eq fun i => ?_⟩ <;>
      have hb := congrArg (fun x => Nat.testBit x i) h <;>
      simp [Nat.testBit_or] at hb <;> simp [hb]
  · rintro ⟨h1, h2⟩
    simp [h1, h2]

theorem foldl_or_eq_zero (f : Nat → Nat) :
    ∀ (l : List Nat) (acc : Nat),
      (l.foldl (fun r x => r ||| f x) acc = 0 ↔ acc = 0 ∧ ∀ x ∈ l, f x = 0) := by
  intro l
  induction l with
  | nil => intro acc; simp
  | cons x xs ih =>
    intro acc
    rw [List.foldl_cons, ih, natOr_eq_zero]
    constructor
    · rintro ⟨⟨h1, h2⟩, h3⟩
      exact ⟨h1, by
        intro y hy
        rcases List.mem_cons.mp hy with rfl | hy
        · exact h2
        · exact h3 y hy⟩
    · rintro ⟨h1, h2⟩
      exact ⟨⟨h1, h2 x (List.mem_cons_self x xs)⟩, fun y hy => h2 y (List.mem_cons_of_mem x hy)⟩

theorem xorAccum_eq_zero (a b : List Nat) :
    xorAccum a b = 0 ↔ ∀ i < a.length, nthByte a i = nthByte b i := by
  unfold xorAccum
  rw [foldl_or_eq_zero (fun i => nthByte a i ^^^ nthByte b i)]
  simp [List.mem_range, Nat.xor_eq_zero]

theorem nthByte_eq_getElem :
    ∀ (l : List Nat) (i : Nat), i < l.length → ∀ (h : i < l.length), nthByte l i = l[i] := by
  intro l
  induction l with
  | nil => intro i h; simp at h
  | cons a t ih =>
    intro i h hh
    cases i with
    | zero => rfl
    | succ j =>
      have hj : j < t.length := by simpa using h
      simpa [nthByte] using ih j hj hj

/-- The XOR-accumulate comparison decides equality exactly on
equal-length buffers. -/
theorem timingSafeEqual_iff {a b : List Nat} (hlen : a.length = b.length) :
    timingSafeEqual a b = true ↔ a = b := by
  unfold timingSafeEqual
  rw [beq_iff_eq, xorAccum_eq_zero]
  constructor
  · intro h
    refine List.ext_getElem hlen fun i h1 h2 => ?_
    rw [← nthByte_eq_getElem a i h1 h1, ← nthByte_eq_getElem b i h2 h2]
    exact h i h1
  · rintro rfl
    intro i _
    rfl

/-! ## Helper lemmas: hex strings -/

theorem isHexDigit_ascii {c : Char} (h : isHexDigit c = true) : c.toNat < 0x80 := by
  unfold isHexDigit hexVal at h
  simp only at h
  split at h
  · omega
  · split at h
    · omega
    · split at h
      · omega
      · simp at h

theorem utf8EncNat_ascii {n : Nat} (h : n < 0x80) : utf8EncNat n = [n] := by
  unfold utf8EncNat
  rw [if_pos h]

theorem utf8Bytes_length_of_ascii :
    ∀ (l : List Char), (∀ c ∈ l, c.toNat < 0x80) →
      (l.flatMap fun c => utf8EncNat c.toNat).length = l.length := by
  intro l
  induction l with
  | nil => intro _; rfl
  | cons c cs ih =>
    intro h
    rw [List.flatMap_cons, List.length_append,
      utf8EncNat_ascii (h c (List.mem_cons_self c cs)),
      ih fun x hx => h x (List.mem_cons_of_mem c hx)]
    simp [Nat.add_comm]

theorem byteLength_of_hex64 {h : String} (hh : isHex64 h = true) : byteLength h = 64 := by
  unfold isHex64 at hh
  rw [Bool.and_eq_true, beq_iff_eq] at hh
  obtain ⟨hlen, hall⟩ := hh
  unfold byteLength utf8Bytes
  rw [utf8Bytes_length_of_ascii h.data fun c hc =>
    isHexDigit_ascii (List.all_eq_true.mp hall c hc)]
  exact hlen

theorem hexDecodeList_length :
    ∀ (l : List Char), (∀ c ∈ l, isHexDigit c = true) →
      (hexDecodeList l).length = l.length / 2
  | [] => by intro _; rfl
  | [c] => by intro _; simp [hexDecodeList]
  | c1 :: c2 :: rest => by
    intro h
    have h1 : isHexDigit c1 = true := h c1 (by simp)
    have h2 : isHexDigit c2 = true := h c2 (by simp)
    obtain ⟨a, ha⟩ := Option.isSome_iff_exists.mp h1
    obtain ⟨b, hb⟩ := Option.isSome_iff_exists.mp h2
    have hr := hexDecodeList_length rest fun c hc => h c (by simp [hc])
    simp only [hexDecodeList, ha, hb, List.length_cons, hr]
    omega

theorem hexDecode_length_of_hex64 {h : String} (hh : isHex64 h = true) :
    (hexDecode h).length = 32 := by
  unfold isHex64 at hh
  rw [Bool.and_eq_true, beq_iff_eq] at hh
  obtain ⟨hlen, hall⟩ := hh
  unfold hexDecode
  rw [hexDecodeList_length h.data fun c hc => List.all_eq_true.mp hall c hc, hlen]

/-! ## Helper lemmas: lexicographic orders and the sort -/

theorem lexLeN_nil (v : List Nat) : lexLeN [] v = true := by
  cases v <;> rfl

theorem lexLeN_cons_nil (a : Nat) (u : List Nat) : lexLeN (a :: u) [] = false := rfl

theorem lexLeN_cons_lt {a b : Nat} (hab : a < b) (u v : List Nat) :
    lexLeN (a :: u) (b :: v) = true ∧ lexLeN (b :: v) (a :: u) = false := by
  constructor
  · simp [lexLeN, hab]
  · simp [lexLeN, hab, Nat.lt_asymm hab]

theorem lexLeN_cons_same (a : Nat) (u v : List Nat) :
    lexLeN (a :: u) (a :: v) = lexLeN u v := by
  simp [lexLeN]

theorem lexLeN_append_same :
    ∀ (p u v : List Nat), lexLeN (p ++ u) (p ++ v) = lexLeN u v := by
  intro p
  induction p with
  | nil => intro u v; rfl
  | cons a as ih =>
    intro u v
    simpa [lexLeN_cons_same] using ih u v

theorem utf8EncNat_head :
    ∀ n : Nat, ∃ (x : Nat) (xs : List Nat), utf8EncNat n = x :: xs := by
  intro n
  unfold utf8EncNat
  split
  · exact ⟨_, _, rfl⟩
  · split
    · exact ⟨_, _, rfl⟩
    · split
      · exact ⟨_, _, rfl⟩
      · exact ⟨_, _, rfl⟩

/-- UTF-8 encodings of distinct scalar values below U+10000 compare
byte-wise exactly as the scalar values do, whatever bytes follow. -/
theorem utf8_order {m n : Nat} (hm : m < 0x10000) (hn : n < 0x10000) (h : m < n)
    (u v : List Nat) :
    lexLeN (utf8EncNat m ++ u) (utf8EncNat n ++ v) = true ∧
      lexLeN (utf8EncNat n ++ v) (utf8EncNat m ++ u) = false := by
  rcases Nat.lt_or_ge m 0x80 with hm1 | hm1
  · rcases Nat.lt_or_ge n 0x80 with hn1 | hn1
    · rw [utf8EncNat_ascii hm1, utf8EncNat_ascii hn1]
      exact lexLeN_cons_lt h u v
    · rcases Nat.lt_or_ge n 0x800 with hn2 | hn2
      · rw [utf8EncNat_ascii hm1]
        rw [show utf8EncNat n = [0xC0 + n / 0x40, 0x80 + n % 0x40] by
          unfold utf8EncNat; rw [if_neg (by omega), if_pos hn2]]
        exact lexLeN_cons_lt (by omega) _ _
      · rw [utf8EncNat_ascii hm1]
        rw [show utf8EncNat n = [0xE0 + n / 0x1000, 0x80 + n / 0x40 % 0x40, 0x80 + n % 0x40] by
          unfold utf8EncNat; rw [if_neg (by omega), if_neg (by omega), if_pos hn]]
        exact lexLeN_cons_lt (by omega) _ _
  · rcases Nat.lt_or_ge m 0x800 with hm2 | hm2
    · have hem : utf8EncNat m = [0xC0 + m / 0x40, 0x80 + m % 0x40] := by
        unfold utf8EncNat; rw [if_neg (by omega), if_pos hm2]
      rcases Nat.lt_or_ge n 0x800 with hn2 | hn2
      · have hen : utf8EncNat n = [0xC0 + n / 0x40, 0x80 + n % 0x40] := by
          unfold utf8EncNat; rw [if_neg (by omega), if_pos hn2]
        rw [hem, hen]
        rcases Nat.lt_or_ge (m / 0x40) (n / 0x40) with hd | hd
        · exact lexLeN_cons_lt (by omega) _ _
        · have hdeq : 0xC0 + m / 0x40 = 0xC0 + n / 0x40 := by omega
          have hmod : m % 0x40 < n % 0x40 := by omega
          simp only [List.cons_append, hdeq, lexLeN_cons_same]
          exact lexLeN_cons_lt (by omega) _ _
      · have hen : utf8EncNat n = [0xE0 + n / 0x1000, 0x80 + n / 0x40 % 0x40, 0x80 + n % 0x40] := by
          unfold utf8EncNat; rw [if_neg (by omega), if_neg (by omega), if_pos hn]
        rw [hem, hen]
        exact lexLeN_cons_lt (by omega) _ _
    · have hem : utf8EncNat m = [0xE0 + m / 0x1000, 0x80 + m / 0x40 % 0x40, 0x80 + m % 0x40] := by
        unfold utf8EncNat; rw [if_neg (by omega), if_neg (by omega), if_pos hm]
      have hen : utf8EncNat n = [0xE0 + n / 0x1000, 0x80 + n / 0x40 % 0x40, 0x80 + n % 0x40] := by
        unfold utf8EncNat; rw [if_neg (by omega), if_neg (by omega), if_pos hn]
      rw [hem, hen]
      rcases Nat.lt_or_ge (m / 0x1000) (n / 0x1000) with hd | hd
      · exact lexLeN_cons_lt (by omega) _ _
      · have hdeq : 0xE0 + m / 0x1000 = 0xE0 + n / 0x1000 := by omega
        simp only [List.cons_append, hdeq, lexLeN_cons_same]
        rcases Nat.lt_or_ge (m / 0x40 % 0x40) (n / 0x40 % 0x40) with hd2 | hd2
        · exact lexLeN_cons_lt (by omega) _ _
        · have hdeq2 : 0x80 + m / 0x40 % 0x40 = 0x80 + n / 0x40 % 0x40 := by omega
          have hmod : m % 0x40 < n % 0x40 := by omega
          simp only [hdeq2, lexLeN_cons_same]
          exact lexLeN_cons_lt (by omega) _ _

/-- On BMP-only character lists, byte-wise comparison of the UTF-8
encodings coincides with code-point comparison. -/
theorem lex_utf8_eq_lex_points :
    ∀ (as bs : List Char),
      (∀ c ∈ as, c.toNat < 0x10000) → (∀ c ∈ bs, c.toNat < 0x10000) →
      lexLeN (as.flatMap fun c => utf8EncNat c.toNat) (bs.flatMap fun c => utf8EncNat c.toNat) =
        lexLeN (as.map Char.toNat) (bs.map Char.toNat) := by
  intro as
  induction as with
  | nil =>
    intro bs _ _
    rw [List.flatMap_nil, List.map_nil, lexLeN_nil, lexLeN_nil]
  | cons a as ih =>
    intro bs ha hb
    cases bs with
    | nil =>
      rw [List.flatMap_cons, List.map_cons]
      obtain ⟨x, xs, hx⟩ := utf8EncNat_head a.toNat
      rw [List.flatMap_nil, List.map_nil, hx, List.cons_append, lexLeN_cons_nil,
        lexLeN_cons_nil]
    | cons b bs =>
      have ha1 : a.toNat < 0x10000 := ha a (List.mem_cons_self a as)
      have hb1 : b.toNat < 0x10000 := hb b (List.mem_cons_self b bs)
      have ha2 : ∀ c ∈ as, c.toNat < 0x10000 := fun c hc => ha c (List.mem_cons_of_mem a hc)
      have hb2 : ∀ c ∈ bs, c.toNat < 0x10000 := fun c hc => hb c (List.mem_cons_of_mem b hc)
      rw [List.flatMap_cons, List.flatMap_cons, List.map_cons, List.map_cons]
      rcases Nat.lt_trichotomy a.toNat b.toNat with hlt | heq | hgt
      · rw [(utf8_order ha1 hb1 hlt _ _).1, (lexLeN_cons_lt hlt _ _).1]
      · have henc : utf8EncNat a.toNat = utf8EncNat b.toNat := by rw [heq]
        rw [henc, lexLeN_append_same, heq, lexLeN_cons_same, ih bs ha2 hb2]
      · rw [(utf8_order hb1 ha1 hgt _ _).2, (lexLeN_cons_lt hgt _ _).2]

theorem flatMap_eq_map_of {β : Type} (f : Char → List β) (g : Char → β)
    (P : Char → Prop) (hf : ∀ c, P c → f c = [g c]) :
    ∀ l : List Char, (∀ c ∈ l, P c) → l.flatMap f = l.map g := by
  intro l
  induction l with
  | nil => intro _; rfl
  | cons c cs ih =>
    intro h
    rw [List.flatMap_cons, List.map_cons, hf c (h c (List.mem_cons_self c cs)),
      ih fun x hx => h x (List.mem_cons_of_mem c hx)]
    rfl

theorem utf16Units_bmp {s : String} (h : ∀ c ∈ s.data, c.toNat < 0x10000) :
    utf16Units s = s.data.map Char.toNat := by
  unfold utf16Units
  exact flatMap_eq_map_of _ Char.toNat (fun c => c.toNat < 0x10000)
    (fun c hc => by simp [hc]) s.data h

/-- On BMP-only strings the JS default order and the byte-wise order
agree. -/
theorem jsStrLe_eq_byteStrLe {a b : String}
    (ha : ∀ c ∈ a.data, c.toNat < 0x10000) (hb : ∀ c ∈ b.data, c.toNat < 0x10000) :
    jsStrLe a b = byteStrLe a b := by
  unfold jsStrLe byteStrLe utf8Bytes
  rw [utf16Units_bmp ha, utf16Units_bmp hb, lex_utf8_eq_lex_points a.data b.data ha hb]

theorem mem_insertSorted {le : String → String → Bool} {x y : String} :
    ∀ {l : List String}, y ∈ insertSorted le x l ↔ y = x ∨ y ∈ l := by
  intro l
  induction l with
  | nil => simp [insertSorted]
  | cons z zs ih =>
    cases hle : le x z with
    | true => simp [insertSorted, hle]
    | false =>
      simp only [insertSorted, hle, Bool.false_eq_true, if_false, List.mem_cons, ih]
      tauto

theorem mem_sortBy {le : String → String → Bool} {y : String} :
    ∀ {l : List String}, y ∈ sortBy le l ↔ y ∈ l := by
  intro l
  induction l with
  | nil => simp [sortBy]
  | cons x xs ih =>
    rw [sortBy, mem_insertSorted]
    simp [ih]

theorem insertSorted_congr {le1 le2 : String → String → Bool} {x : String} :
    ∀ {l : List String}, (∀ y ∈ l, le1 x y = le2 x y) →
      insertSorted le1 x l = insertSorted le2 x l := by
  intro l
  induction l with
  | nil => intro _; rfl
  | cons z zs ih =>
    intro h
    rw [insertSorted, insertSorted, h z (List.mem_cons_self z zs)]
    by_cases hc : le2 x z
    · rw [if_pos hc, if_pos hc]
    · rw [if_neg hc, if_neg hc, ih fun y hy => h y (List.mem_cons_of_mem z hy)]

theorem sortBy_congr {le1 le2 : String → String → Bool} :
    ∀ {l : List String}, (∀ x ∈ l, ∀ y ∈ l, le1 x y = le2 x y) →
      sortBy le1 l = sortBy le2 l := by
  intro l
  induction l with
  | nil => intro _; rfl
  | cons x xs ih =>
    intro h
    rw [sortBy, sortBy,
      ih fun a ha b hb => h a (List.mem_cons_of_mem x ha) b (List.mem_cons_of_mem x hb)]
    refine insertSorted_congr fun y hy => ?_
    have hy2 : y ∈ xs := mem_sortBy.mp hy
    exact h x (List.mem_cons_self x xs) y (List.mem_cons_of_mem x hy2)

/-! ## Helper lemmas: spec canonicalization agrees with the source -/

theorem string_mk_append (l1 l2 : List Char) :
    String.mk l1 ++ String.mk l2 = String.mk (l1 ++ l2) := rfl

theorem specEscapeVal_eq (c : Char) :
    specEscapeVal c = String.mk (if c = '%' then ['%', '2', '5']
      else if c = '&' then ['%', '2', '6'] else [c]) := by
  unfold specEscapeVal
  by_cases h1 : c = '%'
  · simp [h1]
  · by_cases h2 : c = '&'
    · simp [h1, h2]
    · simp [h1, h2]

theorem specEscapeKey_eq (c : Char) :
    specEscapeKey c = String.mk (if c = '%' then ['%', '2', '5']
      else if c = '&' then ['%', '2', '6']
      else if c = '=' then ['%', '3', 'D'] else [c]) := by
  unfold specEscapeKey
  by_cases h3 : c = '='
  · simp [h3]
  · rw [if_neg h3, specEscapeVal_eq]
    by_cases h1 : c = '%'
    · simp [h1]
    · by_cases h2 : c = '&'
      · simp [h1, h2]
      · simp [h1, h2, h3]

theorem foldr_escape_eq_flatMap (esc : Char → String) (f : Char → List Char)
    (hesc : ∀ c, esc c = String.mk (f c)) :
    ∀ l : List Char, l.foldr (fun c acc => esc c ++ acc) "" = String.mk (l.flatMap f) := by
  intro l
  induction l with
  | nil => rfl
  | cons c cs ih =>
    rw [List.foldr_cons, List.flatMap_cons, ih, hesc c, string_mk_append]

theorem specEncodeValue_eq (s : String) : specEncodeValue s = encodeValue s := by
  unfold specEncodeValue encodeValue
  exact foldr_escape_eq_flatMap specEscapeVal _ specEscapeVal_eq s.data

theorem specEncodeKey_eq (s : String) : specEncodeKey s = encodeKey s := by
  unfold specEncodeKey encodeKey
  exact foldr_escape_eq_flatMap specEscapeKey _ specEscapeKey_eq s.data

theorem specSerialize_eq (v : QVal) : specSerialize v = serializeQVal v := by
  cases v <;> rfl

/-- The spec's pair construction and the source's pair construction
agree on every query object. -/
theorem specPairs_eq (q : QueryMap) : specPairs q = queryPairs q := by
  unfold specPairs queryPairs
  have hf : (fun kv : String × QVal =>
      specEncodeKey kv.fst ++ "=" ++ specEncodeValue (specSerialize kv.snd)) =
      fun kv : String × QVal => pairString kv.fst kv.snd := by
    funext kv
    rw [specEncodeKey_eq, specEncodeValue_eq, specSerialize_eq, pairString]
  rw [hf]

/-- On queries whose pair strings stay in the BMP, the source's JS sort
and the spec's byte-wise sort produce the same canonical string. -/
theorem signingString_eq_spec_of_bmp {q : QueryMap} (h : allBMP q = true) :
    signingString q = specSigningString q := by
  unfold signingString specSigningString
  rw [specPairs_eq]
  refine congrArg (String.intercalate "&") (sortBy_congr fun x hx y hy => ?_)
  unfold allBMP at h
  have hx2 := List.all_eq_true.mp h x hx
  have hy2 := List.all_eq_true.mp h y hy
  exact jsStrLe_eq_byteStrLe
    (fun c hc => of_decide_eq_true (List.all_eq_true.mp hx2 c hc))
    (fun c hc => of_decide_eq_true (List.all_eq_true.mp hy2 c hc))

/-! ## Helper lemmas: the getAccessToken state machine -/

theorem stepExch_calls_append {α : Type} (parse : String → Option α)
    (s : ExchState α) (e : ExchEv) :
    ∃ l, (stepExch parse s e).calls = s.calls ++ l := by
  cases e with
  | timerFire => exact ⟨_, rfl⟩
  | respEnd status body =>
    by_cases h : s.timerVar
    · exact ⟨[classifyResp parse status body], by simp [stepExch, h]⟩
    · exact ⟨[], by simp [stepExch, h]⟩
  | reqError m =>
    by_cases h : s.timerVar
    · exact ⟨[ExchOutcome.rejected ⟨m, none, none⟩], by simp [stepExch, h]⟩
    · exact ⟨[], by simp [stepExch, h]⟩

theorem promise_stable {α : Type} (parse : String → Option α) :
    ∀ (tr : List ExchEv) (s : ExchState α) (o : ExchOutcome α),
      s.calls.head? = some o → ((tr.foldl (stepExch parse) s).calls).head? = some o := by
  intro tr
  induction tr with
  | nil => intro s o h; exact h
  | cons e rest ih =>
    intro s o h
    rw [List.foldl_cons]
    refine ih (stepExch parse s e) o ?_
    obtain ⟨l, hl⟩ := stepExch_calls_append parse s e
    rw [hl]
    cases hc : s.calls with
    | nil => rw [hc] at h; simp at h
    | cons a t =>
      rw [hc] at h
      simp at h
      simp [h]

theorem stepExch_timerVar_false {α : Type} (parse : String → Option α)
    {s : ExchState α} (h : s.timerVar = false) :
    ∀ e, (stepExch parse s e).timerVar = false := by
  intro e
  cases e with
  | timerFire => rfl
  | respEnd status body => simp [stepExch, h]
  | reqError m => simp [stepExch, h]

theorem stepExch_aborted {α : Type} (parse : String → Option α)
    {s : ExchState α} (h : s.aborted = true) :
    ∀ e, (stepExch parse s e).aborted = true := by
  intro e
  cases e with
  | timerFire => rfl
  | respEnd status body =>
    by_cases hv : s.timerVar <;> simp [stepExch, hv, h]
  | reqError m =>
    by_cases hv : s.timerVar <;> simp [stepExch, hv, h]

theorem run_aborted_stable {α : Type} (parse : String → Option α) :
    ∀ (tr : List ExchEv) (s : ExchState α), s.aborted = true →
      (tr.foldl (stepExch parse) s).aborted = true := by
  intro tr
  induction tr with
  | nil => intro s h; exact h
  | cons e rest ih =>
    intro s h
    rw [List.foldl_cons]
    exact ih _ (stepExch_aborted parse h e)

/-- While the timer is still scheduled no settlement call has been made:
the end and error handlers cancel the timer before settling, and the
timeout handler fires only once. -/
theorem stepExch_inv {α : Type} (parse : String → Option α)
    {s : ExchState α} (h : s.timerActive = true → s.calls = []) (e : ExchEv) :
    (stepExch parse s e).timerActive = true → (stepExch parse s e).calls = [] := by
  cases e with
  | timerFire => intro hh; simp [stepExch] at hh
  | respEnd status body =>
    by_cases hv : s.timerVar
    · intro hh; simp [stepExch, hv] at hh
    · simpa [stepExch, hv] using h
  | reqError m =>
    by_cases hv : s.timerVar
    · intro hh; simp [stepExch, hv] at hh
    · simpa [stepExch, hv] using h

theorem run_inv {α : Type} (parse : String → Option α) :
    ∀ (tr : List ExchEv) (s : ExchState α), (s.timerActive = true → s.calls = []) →
      ((tr.foldl (stepExch parse) s).timerActive = true →
        (tr.foldl (stepExch parse) s).calls = []) := by
  intro tr
  induction tr with
  | nil => intro s h; exact h
  | cons e rest ih =>
    intro s h
    rw [List.foldl_cons]
    exact ih _ (stepExch_inv parse h e)

theorem okFromB_append {α : Type} (parse : String → Option α) :
    ∀ (l1 l2 : List ExchEv) (s : ExchState α), okFromB parse s (l1 ++ l2) = true →
      okFromB parse s l1 = true ∧
        okFromB parse (l1.foldl (stepExch parse) s) l2 = true := by
  intro l1
  induction l1 with
  | nil => intro l2 s h; exact ⟨rfl, h⟩
  | cons e rest ih =>
    intro l2 s h
    rw [List.cons_append, okFromB, Bool.and_eq_true] at h
    obtain ⟨he, hrest⟩ := h
    obtain ⟨h1, h2⟩ := ih l2 (stepExch parse s e) hrest
    exact ⟨by rw [okFromB, Bool.and_eq_true]; exact ⟨he, h1⟩, h2⟩

/-! ## Claim theorems -/

/-- Claim C1 (counterexample): the canonical string actually built by
verifyHmac is not always the byte-wise sorted form the spec documents;
with a key at U+10000 and a key at U+FFFF, the JS default sort (UTF-16
code units) and the byte-wise sort order the pairs differently. -/
theorem verifyHmac_canonicalization_cex :
    signingString astralPair ≠ specSigningString astralPair := by decide

/-- Claim C1 (amended): verifyHmac builds the canonical signing string
as documented except that the pairs are sorted in the JS default
(UTF-16 code-unit) order, which coincides with byte-wise ascending order
whenever every character of every pair string is below U+10000; and for
a query whose hmac field is a 64-hex-character string, it returns true
iff the SHA-256 HMAC digest of that canonical string equals the decoded
hmac digest. -/
theorem verifyHmac_canonicalization :
    (∀ q : QueryMap, allBMP q = true → signingString q = specSigningString q) ∧
    (∀ (hmacSha256 : String → String → List Nat) (secret : String) (q : QueryMap)
      (h : String),
      List.lookup "hmac" q = some (QVal.scalar (QScalar.s h)) → isHex64 h = true →
      (hmacSha256 secret (signingString q)).length = 32 →
      (verifyHmac hmacSha256 secret q = true ↔
        hmacSha256 secret (signingString q) = hexDecode h)) := by
  refine ⟨fun q h => signingString_eq_spec_of_bmp h, fun f secret q h hl hhex hlen => ?_⟩
  unfold verifyHmac
  simp only [hl]
  rw [if_pos (byteLength_of_hex64 hhex)]
  exact timingSafeEqual_iff (by rw [hlen, hexDecode_length_of_hex64 hhex])

/-- Claim C1 (witness): the amended claim at concrete inputs. -/
theorem verifyHmac_canonicalization_witness :
    signingString [("a", QVal.scalar (QScalar.s "b"))] =
      specSigningString [("a", QVal.scalar (QScalar.s "b"))] ∧
    (verifyHmac oracle32 "secret" hQuery = true ↔
      oracle32 "secret" (signingString hQuery) = hexDecode hex64zeros) :=
  ⟨verifyHmac_canonicalization.1 _ (by decide),
   verifyHmac_canonicalization.2 oracle32 "secret" hQuery hex64zeros (by decide)
     (by decide) (by decide)⟩

/-- Claim C2: the byte comparison in the code has no length rejection at
all; comparing a 32-byte buffer against the empty buffer yields true
because bytes read past the end of b coerce to 0.  This contradicts the
function's stated contract of byte-for-byte equality of equal-length
buffers. -/
theorem timingSafeEqual_length_bug :
    timingSafeEqual (List.replicate 32 0) [] = true ∧
      (List.replicate 32 0 : List Nat) ≠ [] := by
  exact ⟨by decide, by decide⟩

/-- Claim C3 (counterexample): a 64-character non-hexadecimal hmac (64
times z) passes the guard, so the claimed rejection before the HMAC
computation does not happen; the digest is computed and compared, and
with an (abstractly possible) all-zero digest the comparison against the
empty decode of the non-hex string even returns true. -/
theorem verifyHmac_guard_cex :
    hmacGuardOk zQuery = true ∧ isHex64 zChars64 = false ∧
      verifyHmac oracle32 "secret" zQuery = true := by
  exact ⟨by decide, by decide, by decide⟩

/-- Claim C3 (amended): verifyHmac rejects before any HMAC computation
exactly when the hmac field is absent, not a string, or of UTF-8 byte
length other than 64 (so in particular the empty query map verifies as
false); every 64-hex-character hmac passes this guard.  The guard tests
byte length, not hex-ness. -/
theorem verifyHmac_guard :
    (∀ (hmacSha256 : String → String → List Nat) (secret : String) (q : QueryMap),
      hmacGuardOk q = false → verifyHmac hmacSha256 secret q = false) ∧
    (∀ (hmacSha256 : String → String → List Nat) (secret : String),
      verifyHmac hmacSha256 secret [] = false) ∧
    (∀ h : String, isHex64 h = true → byteLength h = 64) := by
  refine ⟨fun f secret q hg => ?_, fun f secret => rfl,
    fun h hh => byteLength_of_hex64 hh⟩
  unfold hmacGuardOk at hg
  unfold verifyHmac
  rcases hl : List.lookup "hmac" q with _ | v
  · simp [hl]
  · cases v with
    | scalar x =>
      cases x with
      | s hstr =>
        simp only [hl] at hg
        simp only [hl]
        rw [if_neg (by simpa using hg)]
      | n v => simp [hl]
    | arr l => simp [hl]

/-- Claim C3 (witness): the amended claim at concrete inputs. -/
theorem verifyHmac_guard_witness :
    verifyHmac oracle32 "s" [("hmac", QVal.scalar (QScalar.n 5))] = false ∧
      byteLength hex64zeros = 64 :=
  ⟨verifyHmac_guard.1 oracle32 "s" [("hmac", QVal.scalar (QScalar.n 5))] (by decide),
   verifyHmac_guard.2.2 hex64zeros (by decide)⟩

/-- Claim C7: generateAuthUrl uses the shop verbatim as host when it
already ends in .myshopify.com and appends the suffix otherwise, so
qux.myshopify.com and qux yield the same host. -/
theorem generateAuthUrl_host_normalization :
    (∀ shop : String, jsEndsWith shop ".myshopify.com" = true →
      shopHostname shop = shop) ∧
    (∀ shop : String, jsEndsWith shop ".myshopify.com" = false →
      shopHostname shop = shop ++ ".myshopify.com") ∧
    shopHostname "qux.myshopify.com" = shopHostname "qux" := by
  refine ⟨fun shop h => ?_, fun shop h => ?_, by decide⟩
  · unfold shopHostname
    rw [if_pos h]
  · unfold shopHostname
    rw [if_neg (by simp [h])]

/-- Claim C7 (witness): the host normalization at concrete shops. -/
theorem generateAuthUrl_host_normalization_witness :
    shopHostname "qux.myshopify.com" = "qux.myshopify.com" ∧
      shopHostname "qux" = "qux" ++ ".myshopify.com" :=
  ⟨generateAuthUrl_host_normalization.1 "qux.myshopify.com" (by decide),
   generateAuthUrl_host_normalization.2.1 "qux" (by decide)⟩

/-- Claim C9 (counterexample): an options object with all three required
properties present but an empty-string apiKey still throws, because the
constructor tests JS truthiness, not presence. -/
theorem constructToken_presence_cex :
    emptyKeyOptions.apiKey.isSome = true ∧
    emptyKeyOptions.sharedSecret.isSome = true ∧
    emptyKeyOptions.redirectUri.isSome = true ∧
    constructToken (some emptyKeyOptions) =
      Except.error "Missing or invalid options" := by
  exact ⟨rfl, rfl, rfl, rfl⟩

/-- Claim C9 (amended): construction throws synchronously when options
is absent or any of apiKey, sharedSecret, redirectUri is missing (or
present but empty, since the check is JS truthiness); when all three are
present as non-empty strings the instance is created with defaults
scopes read_content, timeout 60000 and empty access mode unless
overridden. -/
theorem constructToken_validation :
    constructToken none = Except.error "Missing or invalid options" ∧
    (∀ opts : TokenOptions,
      opts.apiKey = none ∨ opts.sharedSecret = none ∨ opts.redirectUri = none →
      constructToken (some opts) = Except.error "Missing or invalid options") ∧
    (∀ (opts : TokenOptions) (a s r : String),
      opts.apiKey = some a → a ≠ "" → opts.sharedSecret = some s → s ≠ "" →
      opts.redirectUri = some r → r ≠ "" →
      constructToken (some opts) =
        Except.ok ⟨opts.accessMode.getD "", opts.scopes.getD (ScopesVal.str "read_content"),
          opts.timeout.getD 60000, s, r, a, opts.agent⟩) := by
  refine ⟨rfl, fun opts h => ?_, fun opts a s r ha hA hs hS hr hR => ?_⟩
  · unfold constructToken
    rcases h with h | h | h <;> simp [h, truthyStr]
  · simp only [constructToken]
    rw [if_neg (by simp [ha, hs, hr, truthyStr, hA, hS, hR])]
    simp [ha, hs, hr]

/-- Claim C9 (witness): the amended claim at concrete options. -/
theorem constructToken_validation_witness :
    constructToken (some ⟨none, some "foo", some "bar", none, none, none, none⟩) =
      Except.error "Missing or invalid options" ∧
    constructToken (some fullOptions) =
      Except.ok ⟨"", ScopesVal.str "read_content", 60000, "foo", "bar", "baz", none⟩ :=
  ⟨constructToken_validation.2.1 _ (Or.inl rfl),
   constructToken_validation.2.2 fullOptions "baz" "foo" "bar" rfl (by decide) rfl
     (by decide) rfl (by decide)⟩

/-- Claim C10: the canonicalization is not injective; a key holding the
array ["x"] and the same key holding the literal string of its bracketed
serialization produce the same canonical signing string, so verifyHmac
cannot tell the two queries apart under any digest function. -/
theorem canonicalization_collision :
    arrQuery ≠ strQuery ∧ signingString arrQuery = signingString strQuery ∧
    ∀ (hmacSha256 : String → String → List Nat) (secret : String),
      verifyHmac hmacSha256 secret arrQuery = verifyHmac hmacSha256 secret strQuery := by
  refine ⟨by decide, by decide, fun f secret => rfl⟩

/-- Claim C4 (counterexample): the settlement guard does not make later
completion handlers no-ops in every interleaving.  After a completed
response the timer variable is still non-null (only cleared, not
nulled), so a transport error delivered afterwards is not ignored by the
guard: it makes a second reject call, visible as two entries in the call
log of this valid trace. -/
theorem getAccessToken_settlement_cex :
    validTrace parseNone [ExchEv.respEnd 400 "err", ExchEv.reqError "boom"] = true ∧
    (runExch parseNone [ExchEv.respEnd 400 "err", ExchEv.reqError "boom"]).calls =
      [ExchOutcome.rejected ⟨"Failed to get Shopify access token", some 400, some "err"⟩,
       ExchOutcome.rejected ⟨"boom", none, none⟩] := by
  exact ⟨by decide, by decide⟩

/-- Claim C4 (amended): the promise's settled outcome is always the
first resolve/reject call and is never overridden by later events; a
response or transport error arriving after the timeout handler has
nulled the timer variable leaves the state entirely unchanged; and in
every valid trace the timeout can only fire while nothing has settled
yet.  A transport error arriving after a completed response does issue a
second reject call (the guard does not catch it), which only the
promise's settle-once semantics discards. -/
theorem getAccessToken_settlement :
    ∀ (α : Type) (parse : String → Option α),
      (∀ (tr tr2 : List ExchEv) (o : ExchOutcome α),
        promiseOf (runExch parse tr) = some o →
        promiseOf (runExch parse (tr ++ tr2)) = some o) ∧
      (∀ (tr : List ExchEv) (status : Nat) (body : String),
        (runExch parse tr).timerVar = false →
        runExch parse (tr ++ [ExchEv.respEnd status body]) = runExch parse tr) ∧
      (∀ (tr : List ExchEv) (m : String),
        (runExch parse tr).timerVar = false →
        runExch parse (tr ++ [ExchEv.reqError m]) = runExch parse tr) ∧
      (∀ (pre suf : List ExchEv),
        validTrace parse (pre ++ ExchEv.timerFire :: suf) = true →
        (runExch parse pre).calls = []) := by
  intro α parse
  refine ⟨fun tr tr2 o h => ?_, fun tr status body h => ?_, fun tr m h => ?_,
    fun pre suf hv => ?_⟩
  · rw [runExch, List.foldl_append]
    exact promise_stable parse tr2 _ o h
  · rw [runExch, List.foldl_append, List.foldl_cons, List.foldl_nil]
    show stepExch parse (runExch parse tr) _ = _
    simp [stepExch, h]
  · rw [runExch, List.foldl_append, List.foldl_cons, List.foldl_nil]
    show stepExch parse (runExch parse tr) _ = _
    simp [stepExch, h]
  · unfold validTrace at hv
    rw [Bool.and_eq_true] at hv
    obtain ⟨hpre, hsuf⟩ := okFromB_append parse pre (ExchEv.timerFire :: suf) initExch hv.1
    rw [okFromB, Bool.and_eq_true] at hsuf
    have hact : (pre.foldl (stepExch parse) initExch).timerActive = true := by
      simpa [evEnabled] using hsuf.1
    exact run_inv parse pre initExch (fun _ => rfl) hact

/-- Claim C4 (witness): the amended claim at concrete traces. -/
theorem getAccessToken_settlement_witness :
    promiseOf (runExch parseNone ([ExchEv.respEnd 400 "err"] ++ [ExchEv.reqError "boom"])) =
      some (ExchOutcome.rejected ⟨"Failed to get Shopify access token", some 400, some "err"⟩) ∧
    runExch parseNone ([ExchEv.timerFire] ++ [ExchEv.reqError "late"]) =
      runExch parseNone [ExchEv.timerFire] ∧
    (runExch parseNone ([] : List ExchEv)).calls = [] :=
  ⟨(getAccessToken_settlement String parseNone).1 [ExchEv.respEnd 400 "err"]
      [ExchEv.reqError "boom"] _ (by decide),
   (getAccessToken_settlement String parseNone).2.2.1 [ExchEv.timerFire] "late" (by decide),
   (getAccessToken_settlement String parseNone).2.2.2 [] [] (by decide)⟩

/-- Claim C5: a completed response received while the timer is still
pending and nothing has settled rejects on non-200 status with an error
carrying the original status code and the raw body, and rejects on an
unparseable 200 body with an error carrying status 200 and the raw
body. -/
theorem getAccessToken_response_classification :
    ∀ (α : Type) (parse : String → Option α) (s : ExchState α) (status : Nat)
      (body : String), s.timerVar = true → s.calls = [] →
      ((status ≠ 200 →
        promiseOf (stepExch parse s (ExchEv.respEnd status body)) =
          some (ExchOutcome.rejected
            ⟨"Failed to get Shopify access token", some status, some body⟩)) ∧
      (parse body = none →
        promiseOf (stepExch parse s (ExchEv.respEnd 200 body)) =
          some (ExchOutcome.rejected
            ⟨"Failed to parse the response body", some 200, some body⟩))) := by
  intro α parse s status body ht hc
  refine ⟨fun hs => ?_, fun hp => ?_⟩
  · simp [stepExch, ht, hc, promiseOf, classifyResp, hs]
  · simp [stepExch, ht, hc, promiseOf, classifyResp, hp]

/-- Claim C5 (witness): the classification at concrete responses. -/
theorem getAccessToken_response_classification_witness :
    promiseOf (stepExch parseNone initExch (ExchEv.respEnd 400 "err")) =
      some (ExchOutcome.rejected
        ⟨"Failed to get Shopify access token", some 400, some "err"⟩) ∧
    promiseOf (stepExch parseNone initExch (ExchEv.respEnd 200 "html")) =
      some (ExchOutcome.rejected
        ⟨"Failed to parse the response body", some 200, some "html"⟩) :=
  ⟨(getAccessToken_response_classification String parseNone initExch 400 "err" rfl rfl).1
      (by decide),
   (getAccessToken_response_classification String parseNone initExch 200 "html" rfl rfl).2
      rfl⟩

/-- Claim C6: a 200 response whose body parses resolves the promise with
the parsed payload itself, unchanged. -/
theorem getAccessToken_success_payload :
    ∀ (α : Type) (parse : String → Option α) (s : ExchState α) (body : String)
      (payload : α), s.timerVar = true → s.calls = [] → parse body = some payload →
      promiseOf (stepExch parse s (ExchEv.respEnd 200 body)) =
        some (ExchOutcome.resolved payload) := by
  intro α parse s body payload ht hc hp
  simp [stepExch, ht, hc, promiseOf, classifyResp, hp]

/-- Claim C6 (witness): the success scenario with the example payload of
access_token T and scope read_content resolves with exactly that
payload. -/
theorem getAccessToken_success_payload_witness :
    promiseOf (stepExch parseToken initExch (ExchEv.respEnd 200 tokenBody)) =
      some (ExchOutcome.resolved tokenPayload) :=
  getAccessToken_success_payload (List (String × String)) parseToken initExch tokenBody
    tokenPayload rfl rfl (by simp [parseToken])

/-- Claim C8: whenever the timeout fires in a valid trace, the request
is aborted and the promise settles with the timeout error, which carries
no statusCode and no responseBody. -/
theorem getAccessToken_timeout :
    ∀ (α : Type) (parse : String → Option α) (tr : List ExchEv),
      validTrace parse tr = true → ExchEv.timerFire ∈ tr →
      (runExch parse tr).aborted = true ∧
      promiseOf (runExch parse tr) = some (ExchOutcome.rejected timeoutError) ∧
      timeoutError.statusCode = none ∧ timeoutError.responseBody = none := by
  intro α parse tr hv hm
  obtain ⟨pre, suf, rfl⟩ := List.append_of_mem hm
  unfold validTrace at hv
  rw [Bool.and_eq_true] at hv
  obtain ⟨hpre, hsuf⟩ := okFromB_append parse pre (ExchEv.timerFire :: suf) initExch hv.1
  rw [okFromB, Bool.and_eq_true] at hsuf
  have hact : (pre.foldl (stepExch parse) initExch).timerActive = true := by
    simpa [evEnabled] using hsuf.1
  have hcalls : (pre.foldl (stepExch parse) initExch).calls = [] :=
    run_inv parse pre initExch (fun _ => rfl) hact
  rw [runExch, List.foldl_append, List.foldl_cons]
  refine ⟨run_aborted_stable parse suf _ rfl, ?_, rfl, rfl⟩
  refine promise_stable parse suf _ _ ?_
  show ((pre.foldl (stepExch parse) initExch).calls ++
    [ExchOutcome.rejected timeoutError]).head? = _
  rw [hcalls]
  rfl

/-- Claim C8 (witness): the timeout firing first in a concrete trace. -/
theorem getAccessToken_timeout_witness :
    (runExch parseNone [ExchEv.timerFire]).aborted = true ∧
    promiseOf (runExch parseNone [ExchEv.timerFire]) =
      some (ExchOutcome.rejected timeoutError) ∧
    timeoutError.statusCode = none ∧ timeoutError.responseBody = none :=
  getAccessToken_timeout String parseNone [ExchEv.timerFire] (by decide) (by decide)
